import Mathlib

/-!
Shallow embedding of the original logic of emotion_recognition_wav2vec2.py:
the label indexer, the feature cache wrapper, the pooling strategy, the
loss-selection part of the classification model forward pass, and the padding
collator label handling. Tensors of floating point numbers are modelled as
lists of rationals; tensor dtypes are modelled by an explicit dtype tag.
-/

/-- Tensor element dtypes relevant to the script (torch.long, torch.int,
torch.float, torch.double). -/
inductive DType where
  | long
  | int
  | float32
  | float64
  deriving DecidableEq, Repr

/-- A tensor, modelled as its dtype tag plus flat data. -/
structure Tensor where
  dtype : DType
  data : List ℚ
  deriving DecidableEq, Repr

/-! ## Label indexer (lines 48-50 and 97-100 of the script) -/

/-- Embeds lines 48-50: label_list = train_dataset.unique(output_column);
label_list.sort(). The unique pass deduplicates the raw labels, the sort pass
orders them lexicographically. -/
def build_vocabulary (labels : List String) : List String :=
  List.insertionSort (· ≤ ·) labels.dedup

/-- Embeds label_to_id (lines 97-100). Python returns either an integer id
(index or -1) or, when the vocabulary is empty, the raw label itself; the two
shapes of result are modelled by a sum type. -/
def label_to_id (label : String) (label_list : List String) : Int ⊕ String :=
  if label_list.length > 0 then
    if label ∈ label_list then Sum.inl (label_list.indexOf label : Int)
    else Sum.inl (-1)
  else Sum.inr label

/-! ## Feature cache (ppf, lines 140-169)

The cache file ./features/speech_list_<split>.npy is modelled as an explicit
state of type Option (List Waveform): some when the file for the split exists
(holding the persisted waveform list), none when it does not. Decoding and
resampling (speech_file_to_array_fn) is an external primitive and is passed in
as a function. ppf returns the waveform list together with the cache state
after the call (np.save persists the list on a miss). -/

/-- A decoded, resampled waveform. -/
abbrev Waveform := List ℚ

/-- Embeds the speech_list portion of ppf (lines 141-152): on a cache hit the
persisted list is deserialized and returned directly; on a miss every path is
decoded in order and the resulting list is persisted before returning. -/
def ppf (decode : String → Waveform) (cache : Option (List Waveform))
    (paths : List String) : List Waveform × Option (List Waveform) :=
  match cache with
  | some stored => (stored, some stored)
  | none =>
      let speech_list := paths.map decode
      (speech_list, some speech_list)

/-! ## Pooling strategy (merged_strategy, lines 253-268) -/

/-- Element-wise addition of two hidden vectors (torch.add on equal shapes). -/
def vecAdd : List ℚ → List ℚ → List ℚ
  | a :: as, b :: bs => (a + b) :: vecAdd as bs
  | _, _ => []

/-- Element-wise maximum of two hidden vectors. -/
def vecMax : List ℚ → List ℚ → List ℚ
  | a :: as, b :: bs => max a b :: vecMax as bs
  | _, _ => []

/-- torch.sum(hidden_states, dim=1) for one utterance: fold the per-frame
vectors with element-wise addition. -/
def sumPool (hidden_states : List (List ℚ)) : List ℚ :=
  match hidden_states with
  | [] => []
  | r :: rest => rest.foldl vecAdd r

/-- torch.max(hidden_states, dim=1)[0] for one utterance: fold the per-frame
vectors with element-wise maximum. -/
def maxPool (hidden_states : List (List ℚ)) : List ℚ :=
  match hidden_states with
  | [] => []
  | r :: rest => rest.foldl vecMax r

/-- torch.mean(hidden_states, dim=1) for one utterance: the element-wise sum
divided by the number of frames. -/
def meanPool (hidden_states : List (List ℚ)) : List ℚ :=
  (sumPool hidden_states).map (fun x => x / (hidden_states.length : ℚ))

/-- Embeds merged_strategy (lines 253-268). An unrecognized mode raises, which
is modelled by Except.error carrying the exception message. -/
def merged_strategy (hidden_states : List (List ℚ)) (mode : String) :
    Except String (List ℚ) :=
  if mode = "mean" then Except.ok (meanPool hidden_states)
  else if mode = "sum" then Except.ok (sumPool hidden_states)
  else if mode = "max" then Except.ok (maxPool hidden_states)
  else Except.error
    "The pooling method has not been defined! Your pooling mode must be one of these [mean, sum, max]"

/-! ## Loss selection in Wav2Vec2ForSpeechClassification.forward (lines 270-320)

The wav2vec2 encoder and the learned weights of the classification head are
external: the encoder output (outputs[0], the per-frame hidden states) and the
classification head are taken as parameters. The loss functions MSELoss,
CrossEntropyLoss and BCEWithLogitsLoss are external library calls; which one
is applied to which tensors is what the script decides, so the computed loss
is modelled symbolically as the applied loss function with its arguments. -/

/-- The part of the HuggingFace config the forward pass reads and writes:
config.problem_type (None when not explicitly configured). -/
structure Config where
  problem_type : Option String
  deriving DecidableEq, Repr

/-- A symbolic loss value: which torch loss function the forward pass applied,
and the (flattened) logits and label data it received. -/
inductive LossExpr where
  | mse (logits : List ℚ) (labels : List ℚ)
  | crossEntropy (logits : List ℚ) (target : List ℚ)
  | bceWithLogits (logits : List ℚ) (labels : List ℚ)
  deriving DecidableEq, Repr

/-- Embeds SpeechClassifierOutput (lines 202-207), restricted to the fields
the claims are about. -/
structure SpeechClassifierOutput where
  loss : Option LossExpr
  logits : Tensor
  deriving DecidableEq, Repr

/-- Embeds the problem-type inference of lines 294-299: num_labels == 1 gives
regression; num_labels > 1 with integer-typed labels (torch.long or torch.int)
gives single-label classification; otherwise multi-label classification. -/
def inferProblemType (num_labels : Nat) (labels : Tensor) : String :=
  if num_labels = 1 then "regression"
  else if 1 < num_labels ∧ (labels.dtype = DType.long ∨ labels.dtype = DType.int) then
    "single_label_classification"
  else
    "multi_label_classification"

/-- Embeds Wav2Vec2ForSpeechClassification.forward (lines 270-320) from the
encoder output onward: pool the hidden states with the configured mode (an
invalid mode raises, propagated as Except.error), apply the classification
head to get logits, then, only when labels are present, fill in
config.problem_type if it is None and dispatch on it to compute the loss.
Returns the model output together with the config after the call. -/
def forward (num_labels : Nat) (pooling_mode : String)
    (classifier : List ℚ → List ℚ) (cfg : Config)
    (hidden_states : List (List ℚ)) (labels : Option Tensor) :
    Except String (SpeechClassifierOutput × Config) :=
  match merged_strategy hidden_states pooling_mode with
  | Except.error e => Except.error e
  | Except.ok pooled =>
      let logits : Tensor := ⟨DType.float32, classifier pooled⟩
      match labels with
      | none => Except.ok (⟨none, logits⟩, cfg)
      | some lab =>
          let cfg' : Config :=
            match cfg.problem_type with
            | some pt => ⟨some pt⟩
            | none => ⟨some (inferProblemType num_labels lab)⟩
          let loss : Option LossExpr :=
            if cfg'.problem_type = some "regression" then
              some (LossExpr.mse logits.data lab.data)
            else if cfg'.problem_type = some "single_label_classification" then
              some (LossExpr.crossEntropy logits.data lab.data)
            else if cfg'.problem_type = some "multi_label_classification" then
              some (LossExpr.bceWithLogits logits.data lab.data)
            else none
          Except.ok (⟨loss, logits⟩, cfg')

/-! ## Padding collator (DataCollatorCTCWithPadding.__call__, lines 385-401)

processor.pad is an external library call and is passed in as a function that
returns the padded input batch and the attention mask. The label dtype choice
and label stacking (lines 389 and 399) are the original logic. An empty batch
makes label_features[0] raise IndexError, modelled by Option. -/

/-- A per-record label as it reaches the collator: a plain python int for
single-label classification targets, a float vector otherwise. -/
inductive LabelVal where
  | intLab (n : Int)
  | floatVec (v : List ℚ)
  deriving DecidableEq, Repr

/-- One processed record handed to the collator. -/
structure FeatureRec where
  input_values : List ℚ
  labels : LabelVal
  deriving DecidableEq, Repr

/-- The batch the collator returns. -/
structure CollatedBatch where
  input_values : List (List ℚ)
  attention_mask : List (List Nat)
  labels_dtype : DType
  labels : List LabelVal
  deriving DecidableEq, Repr

/-- Embeds DataCollatorCTCWithPadding.call (lines 385-401): split off the
input features and the labels, choose the label dtype from the first label
(torch.long when it is a python int, torch.float otherwise), pad the inputs
through the external processor, and stack the labels as one tensor of that
dtype. -/
def dataCollatorCall
    (pad : List (List ℚ) → List (List ℚ) × List (List Nat))
    (features : List FeatureRec) : Option CollatedBatch :=
  let label_features := features.map (·.labels)
  match label_features.head? with
  | none => none
  | some first =>
      let d_type : DType :=
        match first with
        | LabelVal.intLab _ => DType.long
        | _ => DType.float32
      let input_features := features.map (·.input_values)
      let padded := pad input_features
      some ⟨padded.1, padded.2, d_type, label_features⟩

/-! ## Helper lemmas about the element-wise vector operations -/

theorem vecAdd_length (a b : List ℚ) : (vecAdd a b).length = min a.length b.length := by
  induction a generalizing b with
  | nil => cases b <;> simp [vecAdd]
  | cons x xs ih =>
      cases b with
      | nil => simp [vecAdd]
      | cons y ys => simp [vecAdd, ih, Nat.succ_min_succ]

theorem vecMax_length (a b : List ℚ) : (vecMax a b).length = min a.length b.length := by
  induction a generalizing b with
  | nil => cases b <;> simp [vecMax]
  | cons x xs ih =>
      cases b with
      | nil => simp [vecMax]
      | cons y ys => simp [vecMax, ih, Nat.succ_min_succ]

theorem vecAdd_getD (a b : List ℚ) (j : Nat) (ha : j < a.length) (hb : j < b.length) :
    (vecAdd a b).getD j 0 = a.getD j 0 + b.getD j 0 := by
  induction a generalizing b j with
  | nil => simp at ha
  | cons x xs ih =>
      cases b with
      | nil => simp at hb
      | cons y ys =>
          cases j with
          | zero => simp [vecAdd]
          | succ k =>
              simp only [vecAdd, List.getD_cons_succ]
              exact ih ys k (Nat.lt_of_succ_lt_succ ha) (Nat.lt_of_succ_lt_succ hb)

theorem vecMax_getD (a b : List ℚ) (j : Nat) (ha : j < a.length) (hb : j < b.length) :
    (vecMax a b).getD j 0 = max (a.getD j 0) (b.getD j 0) := by
  induction a generalizing b j with
  | nil => simp at ha
  | cons x xs ih =>
      cases b with
      | nil => simp at hb
      | cons y ys =>
          cases j with
          | zero => simp [vecMax]
          | succ k =>
              simp only [vecMax, List.getD_cons_succ]
              exact ih ys k (Nat.lt_of_succ_lt_succ ha) (Nat.lt_of_succ_lt_succ hb)

theorem foldl_vecAdd_length (rest : List (List ℚ)) (acc : List ℚ) (w : Nat)
    (hacc : acc.length = w) (hrest : ∀ r ∈ rest, r.length = w) :
    (rest.foldl vecAdd acc).length = w := by
  induction rest generalizing acc with
  | nil => simpa using hacc
  | cons r t ih =>
      simp only [List.foldl_cons]
      refine ih (vecAdd acc r) ?_ (fun s hs => hrest s (List.mem_cons_of_mem r hs))
      rw [vecAdd_length, hacc, hrest r (List.mem_cons_self r t), Nat.min_self]

theorem foldl_vecMax_length (rest : List (List ℚ)) (acc : List ℚ) (w : Nat)
    (hacc : acc.length = w) (hrest : ∀ r ∈ rest, r.length = w) :
    (rest.foldl vecMax acc).length = w := by
  induction rest generalizing acc with
  | nil => simpa using hacc
  | cons r t ih =>
      simp only [List.foldl_cons]
      refine ih (vecMax acc r) ?_ (fun s hs => hrest s (List.mem_cons_of_mem r hs))
      rw [vecMax_length, hacc, hrest r (List.mem_cons_self r t), Nat.min_self]

theorem foldl_vecAdd_getD (rest : List (List ℚ)) (acc : List ℚ) (w : Nat)
    (hacc : acc.length = w) (hrest : ∀ r ∈ rest, r.length = w) (j : Nat) (hj : j < w) :
    (rest.foldl vecAdd acc).getD j 0 =
      acc.getD j 0 + (rest.map (fun r => r.getD j 0)).sum := by
  induction rest generalizing acc with
  | nil => simp
  | cons r t ih =>
      simp only [List.foldl_cons, List.map_cons, List.sum_cons]
      rw [ih (vecAdd acc r) ?_ (fun s hs => hrest s (List.mem_cons_of_mem r hs))]
      · rw [vecAdd_getD acc r j (hacc ▸ hj) ((hrest r (List.mem_cons_self r t)) ▸ hj)]
        ring
      · rw [vecAdd_length, hacc, hrest r (List.mem_cons_self r t), Nat.min_self]

theorem foldl_vecMax_getD (rest : List (List ℚ)) (acc : List ℚ) (w : Nat)
    (hacc : acc.length = w) (hrest : ∀ r ∈ rest, r.length = w) (j : Nat) (hj : j < w) :
    (rest.foldl vecMax acc).getD j 0 =
      (rest.map (fun r => r.getD j 0)).foldl max (acc.getD j 0) := by
  induction rest generalizing acc with
  | nil => simp
  | cons r t ih =>
      simp only [List.foldl_cons, List.map_cons]
      rw [ih (vecMax acc r) ?_ (fun s hs => hrest s (List.mem_cons_of_mem r hs))]
      · rw [vecMax_getD acc r j (hacc ▸ hj) ((hrest r (List.mem_cons_self r t)) ▸ hj)]
      · rw [vecMax_length, hacc, hrest r (List.mem_cons_self r t), Nat.min_self]

theorem foldl_max_choice (l : List ℚ) (a : ℚ) : l.foldl max a = a ∨ l.foldl max a ∈ l := by
  induction l generalizing a with
  | nil => simp
  | cons b t ih =>
      simp only [List.foldl_cons, List.mem_cons]
      rcases ih (max a b) with h | h
      · rcases max_choice a b with hm | hm
        · exact Or.inl (h.trans hm)
        · exact Or.inr (Or.inl (h.trans hm))
      · exact Or.inr (Or.inr h)

theorem le_foldl_max_init (l : List ℚ) (a : ℚ) : a ≤ l.foldl max a := by
  induction l generalizing a with
  | nil => simp
  | cons b t ih =>
      simp only [List.foldl_cons]
      exact le_trans (le_max_left a b) (ih (max a b))

theorem le_foldl_max_mem (l : List ℚ) (a : ℚ) (x : ℚ) (hx : x ∈ l) :
    x ≤ l.foldl max a := by
  induction l generalizing a with
  | nil => simp at hx
  | cons b t ih =>
      simp only [List.foldl_cons]
      rcases List.mem_cons.mp hx with h | h
      · refine le_trans ?_ (le_foldl_max_init t (max a b))
        rw [h]
        exact le_max_right a b
      · exact ih (max a b) h

theorem getD_map_of_lt (f : ℚ → ℚ) (l : List ℚ) (j : Nat) (h : j < l.length) :
    (l.map f).getD j 0 = f (l.getD j 0) := by
  simp [List.getD_eq_getElem?_getD, List.getElem?_map, List.getElem?_eq_getElem h]

/-- C2: For every per-frame hidden-state sequence, merged_strategy with mode
mean returns the arithmetic mean across the time axis, with mode sum the sum
across the time axis, and with mode max the element-wise maximum across the
time axis; in particular, pooling the time-major sequence
[[1,2],[3,4],[5,6]] yields [3,4] for mean, [9,12] for sum, [5,6] for max. -/
theorem merged_strategy_pooling_modes (hs : List (List ℚ)) (w : Nat)
    (hne : hs ≠ []) (hw : ∀ r ∈ hs, r.length = w) :
    (∃ m, merged_strategy hs "mean" = Except.ok m ∧ m.length = w ∧
      ∀ j, j < w → m.getD j 0 = (hs.map (fun r => r.getD j 0)).sum / (hs.length : ℚ)) ∧
    (∃ s, merged_strategy hs "sum" = Except.ok s ∧ s.length = w ∧
      ∀ j, j < w → s.getD j 0 = (hs.map (fun r => r.getD j 0)).sum) ∧
    (∃ m, merged_strategy hs "max" = Except.ok m ∧ m.length = w ∧
      ∀ j, j < w → m.getD j 0 ∈ hs.map (fun r => r.getD j 0) ∧
        ∀ v ∈ hs.map (fun r => r.getD j 0), v ≤ m.getD j 0) ∧
    (merged_strategy [[1,2],[3,4],[5,6]] "mean" = Except.ok [3,4] ∧
      merged_strategy [[1,2],[3,4],[5,6]] "sum" = Except.ok [9,12] ∧
      merged_strategy [[1,2],[3,4],[5,6]] "max" = Except.ok [5,6]) := by
  obtain ⟨r, rest, rfl⟩ : ∃ r rest, hs = r :: rest := by
    cases hs with
    | nil => exact absurd rfl hne
    | cons r rest => exact ⟨r, rest, rfl⟩
  have hr : r.length = w := hw r (List.mem_cons_self r rest)
  have hrest : ∀ s ∈ rest, s.length = w :=
    fun s hs => hw s (List.mem_cons_of_mem r hs)
  have hsum_len : (sumPool (r :: rest)).length = w :=
    foldl_vecAdd_length rest r w hr hrest
  have hsum_getD : ∀ j, j < w →
      (sumPool (r :: rest)).getD j 0 = ((r :: rest).map (fun s => s.getD j 0)).sum := by
    intro j hj
    simp only [sumPool, List.map_cons, List.sum_cons]
    exact foldl_vecAdd_getD rest r w hr hrest j hj
  refine ⟨?_, ?_, ?_, ?_, ?_, ?_⟩
  · refine ⟨meanPool (r :: rest), by simp [merged_strategy], ?_, ?_⟩
    · simp [meanPool, hsum_len]
    · intro j hj
      rw [meanPool, getD_map_of_lt _ _ j (hsum_len ▸ hj), hsum_getD j hj]
  · refine ⟨sumPool (r :: rest), by simp [merged_strategy], hsum_len, hsum_getD⟩
  · refine ⟨maxPool (r :: rest), by simp [merged_strategy],
      foldl_vecMax_length rest r w hr hrest, ?_⟩
    intro j hj
    have hm : (maxPool (r :: rest)).getD j 0 =
        (rest.map (fun s => s.getD j 0)).foldl max (r.getD j 0) := by
      simp only [maxPool]
      exact foldl_vecMax_getD rest r w hr hrest j hj
    constructor
    · rw [hm]
      rcases foldl_max_choice (rest.map (fun s => s.getD j 0)) (r.getD j 0) with h | h
      · rw [h]
        exact List.mem_map_of_mem _ (List.mem_cons_self r rest)
      · simp only [List.map_cons, List.mem_cons]
        exact Or.inr (by simpa using h)
    · intro v hv
      rw [hm]
      simp only [List.map_cons, List.mem_cons] at hv
      rcases hv with h | h
      · rw [h]
        exact le_foldl_max_init _ _
      · exact le_foldl_max_mem _ _ v (by simpa using h)
  · have h : merged_strategy [[1,2],[3,4],[5,6]] "mean"
        = Except.ok (meanPool [[1,2],[3,4],[5,6]]) := by simp [merged_strategy]
    rw [h]
    norm_num [meanPool, sumPool, vecAdd]
  · have h : merged_strategy [[1,2],[3,4],[5,6]] "sum"
        = Except.ok (sumPool [[1,2],[3,4],[5,6]]) := by simp [merged_strategy]
    rw [h]
    norm_num [sumPool, vecAdd]
  · have h : merged_strategy [[1,2],[3,4],[5,6]] "max"
        = Except.ok (maxPool [[1,2],[3,4],[5,6]]) := by simp [merged_strategy]
    rw [h]
    norm_num [maxPool, vecMax]

/-- Witness for C2: the general theorem applied to the concrete sequence
[[1,2],[3,4],[5,6]] of width 2 yields the spec values. -/
theorem merged_strategy_pooling_modes_witness :
    merged_strategy [[1,2],[3,4],[5,6]] "mean" = Except.ok [3,4] ∧
    merged_strategy [[1,2],[3,4],[5,6]] "sum" = Except.ok [9,12] ∧
    merged_strategy [[1,2],[3,4],[5,6]] "max" = Except.ok [5,6] :=
  (merged_strategy_pooling_modes [[1,2],[3,4],[5,6]] 2 (by simp)
    (by intro r hr; simp only [List.mem_cons, List.not_mem_nil, or_false] at hr
        rcases hr with h | h | h <;> subst h <;> rfl)).2.2.2

/-- C3: for every pooling mode other than mean, sum, or max, merged_strategy
raises (Except.error) and never returns a value. -/
theorem merged_strategy_invalid_mode_errors (mode : String)
    (h1 : mode ≠ "mean") (h2 : mode ≠ "sum") (h3 : mode ≠ "max")
    (hidden_states : List (List ℚ)) :
    merged_strategy hidden_states mode = Except.error
      "The pooling method has not been defined! Your pooling mode must be one of these [mean, sum, max]" ∧
    ∀ v, merged_strategy hidden_states mode ≠ Except.ok v := by
  have he : merged_strategy hidden_states mode = Except.error
      "The pooling method has not been defined! Your pooling mode must be one of these [mean, sum, max]" := by
    simp [merged_strategy, h1, h2, h3]
  exact ⟨he, fun v hv => by rw [he] at hv; exact Except.noConfusion hv⟩

/-- Witness for C3: the mode median fails fatally. -/
theorem merged_strategy_invalid_mode_errors_witness :
    merged_strategy [[1,2],[3,4]] "median" = Except.error
      "The pooling method has not been defined! Your pooling mode must be one of these [mean, sum, max]" ∧
    ∀ v, merged_strategy [[1,2],[3,4]] "median" ≠ Except.ok v :=
  merged_strategy_invalid_mode_errors "median" (by decide) (by decide) (by decide)
    [[1,2],[3,4]]

/-- C10: when the vocabulary list is empty, label_to_id returns the raw label
argument itself (the Sum.inr branch) rather than the sentinel -1. -/
theorem label_to_id_empty_vocab_returns_label :
    ∀ label : String, label_to_id label [] = Sum.inr label :=
  fun _ => rfl

/-- C4: build_vocabulary yields the deduplicated labels in lexicographic
sorted order, insertion order is irrelevant; label_to_id returns the index
when the label is present and the sentinel -1 when it is absent; in
particular, the vocabulary built from [happy, sad, happy, angry] is
[angry, happy, sad], with label_to_id of sad equal to 2 and label_to_id of
unknown equal to -1. -/
theorem build_vocabulary_label_to_id_spec :
    (∀ l : List String, List.Sorted (· ≤ ·) (build_vocabulary l) ∧
      (build_vocabulary l).Nodup ∧ (∀ s, s ∈ build_vocabulary l ↔ s ∈ l)) ∧
    (∀ l l' : List String, l.Perm l' → build_vocabulary l = build_vocabulary l') ∧
    (∀ (label : String) (vocab : List String), label ∈ vocab →
      ∃ i : Fin vocab.length, vocab.get i = label ∧
        label_to_id label vocab = Sum.inl ((i : Nat) : Int)) ∧
    (∀ (label : String) (vocab : List String), vocab ≠ [] → label ∉ vocab →
      label_to_id label vocab = Sum.inl (-1)) ∧
    (build_vocabulary ["happy","sad","happy","angry"] = ["angry","happy","sad"] ∧
      label_to_id "sad" ["angry","happy","sad"] = Sum.inl 2 ∧
      label_to_id "unknown" ["angry","happy","sad"] = Sum.inl (-1)) := by
  have hvocab : build_vocabulary ["happy","sad","happy","angry"] = ["angry","happy","sad"] := by
    have hsorted : List.Sorted (fun a b : String => a ≤ b) ["angry","happy","sad"] := by
      simp [List.sorted_cons]
      refine ⟨⟨?_, ?_⟩, ?_⟩ <;> decide
    refine List.eq_of_perm_of_sorted ?_ (List.sorted_insertionSort _ _) hsorted
    refine (List.perm_insertionSort _ _).trans ?_
    have hd : (["happy","sad","happy","angry"] : List String).dedup
        = ["sad","happy","angry"] := rfl
    rw [hd]
    decide
  refine ⟨?_, ?_, ?_, ?_, hvocab, by decide, by decide⟩
  · intro l
    refine ⟨List.sorted_insertionSort _ _,
      ((List.perm_insertionSort _ _).nodup_iff).mpr (List.nodup_dedup l), ?_⟩
    intro s
    rw [build_vocabulary, (List.perm_insertionSort _ _).mem_iff, List.mem_dedup]
  · intro l l' hperm
    refine List.eq_of_perm_of_sorted ?_
      (List.sorted_insertionSort _ _) (List.sorted_insertionSort _ _)
    exact ((List.perm_insertionSort _ _).trans hperm.dedup).trans
      (List.perm_insertionSort _ _).symm
  · intro label vocab hmem
    have hidx : List.indexOf label vocab < vocab.length :=
      List.indexOf_lt_length.mpr hmem
    have hlen : 0 < vocab.length := List.length_pos.mpr (List.ne_nil_of_mem hmem)
    refine ⟨⟨List.indexOf label vocab, hidx⟩, List.indexOf_get hidx, ?_⟩
    simp [label_to_id, hmem, hlen]
  · intro label vocab hne hmem
    have hlen : 0 < vocab.length := List.length_pos.mpr hne
    simp [label_to_id, hmem, hlen]

/-- Witness for C4: the theorem applied to the concrete spec vocabulary, with
the insertion-order-irrelevance part applied to a concrete permutation. -/
theorem build_vocabulary_label_to_id_spec_witness :
    build_vocabulary ["sad","angry","happy","happy"]
      = build_vocabulary ["happy","sad","happy","angry"] ∧
    build_vocabulary ["happy","sad","happy","angry"] = ["angry","happy","sad"] ∧
    label_to_id "sad" ["angry","happy","sad"] = Sum.inl 2 ∧
    label_to_id "unknown" ["angry","happy","sad"] = Sum.inl (-1) :=
  ⟨build_vocabulary_label_to_id_spec.2.1 _ _ (by decide),
    build_vocabulary_label_to_id_spec.2.2.2.2⟩

/-- C1: in a forward pass with labels present and no configured problem type,
the loss is selected by label cardinality and dtype: one output class gives
the regression path (MSELoss on logits and labels); more than one class with
integer-typed labels gives single-label classification (CrossEntropyLoss on
class logits and the integer targets); more than one class with non-integer
labels gives multi-label classification (BCEWithLogitsLoss). -/
theorem forward_loss_selector (num_labels : Nat) (mode : String)
    (classifier : List ℚ → List ℚ) (hidden_states : List (List ℚ))
    (pooled : List ℚ) (lab : Tensor)
    (hp : merged_strategy hidden_states mode = Except.ok pooled) :
    (num_labels = 1 →
      forward num_labels mode classifier ⟨none⟩ hidden_states (some lab)
        = Except.ok (⟨some (LossExpr.mse (classifier pooled) lab.data),
            ⟨DType.float32, classifier pooled⟩⟩, ⟨some "regression"⟩)) ∧
    (1 < num_labels → (lab.dtype = DType.long ∨ lab.dtype = DType.int) →
      forward num_labels mode classifier ⟨none⟩ hidden_states (some lab)
        = Except.ok (⟨some (LossExpr.crossEntropy (classifier pooled) lab.data),
            ⟨DType.float32, classifier pooled⟩⟩, ⟨some "single_label_classification"⟩)) ∧
    (1 < num_labels → lab.dtype ≠ DType.long → lab.dtype ≠ DType.int →
      forward num_labels mode classifier ⟨none⟩ hidden_states (some lab)
        = Except.ok (⟨some (LossExpr.bceWithLogits (classifier pooled) lab.data),
            ⟨DType.float32, classifier pooled⟩⟩, ⟨some "multi_label_classification"⟩)) := by
  refine ⟨?_, ?_, ?_⟩
  · intro h1
    have hi : inferProblemType num_labels lab = "regression" := by
      simp [inferProblemType, h1]
    simp [forward, hp, hi]
  · intro h1 hdt
    have hi : inferProblemType num_labels lab = "single_label_classification" := by
      simp [inferProblemType, Nat.ne_of_gt h1, h1, hdt]
    simp [forward, hp, hi]
  · intro h1 hdl hdi
    have hi : inferProblemType num_labels lab = "multi_label_classification" := by
      simp [inferProblemType, Nat.ne_of_gt h1, hdl, hdi]
    simp [forward, hp, hi]

/-- Witness for C1: the three spec examples. One class with float labels
selects MSELoss, four classes with integer labels [0,2,1] selects
CrossEntropyLoss, four classes with float multi-hot labels selects
BCEWithLogitsLoss; the hidden states [[1,2],[3,4],[5,6]] are mean-pooled to
[3,4] and the classification head is the identity. -/
theorem forward_loss_selector_witness :
    forward 1 "mean" (fun v => v) ⟨none⟩ [[1,2],[3,4],[5,6]]
        (some ⟨DType.float32, [(1:ℚ)/2]⟩)
      = Except.ok (⟨some (LossExpr.mse [3,4] [(1:ℚ)/2]),
          ⟨DType.float32, [3,4]⟩⟩, ⟨some "regression"⟩) ∧
    forward 4 "mean" (fun v => v) ⟨none⟩ [[1,2],[3,4],[5,6]]
        (some ⟨DType.long, [0,2,1]⟩)
      = Except.ok (⟨some (LossExpr.crossEntropy [3,4] [0,2,1]),
          ⟨DType.float32, [3,4]⟩⟩, ⟨some "single_label_classification"⟩) ∧
    forward 4 "mean" (fun v => v) ⟨none⟩ [[1,2],[3,4],[5,6]]
        (some ⟨DType.float32, [1,0,1,0]⟩)
      = Except.ok (⟨some (LossExpr.bceWithLogits [3,4] [1,0,1,0]),
          ⟨DType.float32, [3,4]⟩⟩, ⟨some "multi_label_classification"⟩) := by
  have hp : merged_strategy [[1,2],[3,4],[5,6]] "mean" = Except.ok [3,4] := by
    have h : merged_strategy [[1,2],[3,4],[5,6]] "mean"
        = Except.ok (meanPool [[1,2],[3,4],[5,6]]) := by simp [merged_strategy]
    rw [h]
    norm_num [meanPool, sumPool, vecAdd]
  exact ⟨(forward_loss_selector 1 "mean" (fun v => v) _ [3,4]
      ⟨DType.float32, [(1:ℚ)/2]⟩ hp).1 rfl,
    (forward_loss_selector 4 "mean" (fun v => v) _ [3,4]
      ⟨DType.long, [0,2,1]⟩ hp).2.1 (by decide) (Or.inl rfl),
    (forward_loss_selector 4 "mean" (fun v => v) _ [3,4]
      ⟨DType.float32, [1,0,1,0]⟩ hp).2.2 (by decide) (by decide) (by decide)⟩

/-- C7: a forward pass without labels computes no loss: the loss field is
None, no error is raised, and the logits are still produced. -/
theorem forward_without_labels_no_loss (num_labels : Nat) (mode : String)
    (classifier : List ℚ → List ℚ) (hidden_states : List (List ℚ))
    (pooled : List ℚ) (cfg : Config)
    (hp : merged_strategy hidden_states mode = Except.ok pooled) :
    forward num_labels mode classifier cfg hidden_states none
      = Except.ok (⟨none, ⟨DType.float32, classifier pooled⟩⟩, cfg) := by
  simp [forward, hp]

/-- Witness for C7: an inference-only pass on the concrete hidden states. -/
theorem forward_without_labels_no_loss_witness :
    forward 4 "mean" (fun v => v) ⟨none⟩ [[1,2],[3,4],[5,6]] none
      = Except.ok (⟨none, ⟨DType.float32, [3,4]⟩⟩, ⟨none⟩) :=
  forward_without_labels_no_loss 4 "mean" (fun v => v) [[1,2],[3,4],[5,6]] [3,4]
    ⟨none⟩ (by
      have h : merged_strategy [[1,2],[3,4],[5,6]] "mean"
          = Except.ok (meanPool [[1,2],[3,4],[5,6]]) := by simp [merged_strategy]
      rw [h]
      norm_num [meanPool, sumPool, vecAdd])

/-- C9: the problem type is inferred at most once per run. On the first
labeled forward pass with no configured problem type it is inferred from the
labels and stored in the config; on every labeled forward pass whose config
already stores a problem type, the stored value is reused unchanged and
selects the loss, regardless of the dtype of the labels of that pass. -/
theorem problem_type_inferred_once_then_cached :
    (∀ (num_labels : Nat) (mode : String) (classifier : List ℚ → List ℚ)
        (hidden_states : List (List ℚ)) (pooled : List ℚ) (lab : Tensor),
      merged_strategy hidden_states mode = Except.ok pooled →
      ∃ out, forward num_labels mode classifier ⟨none⟩ hidden_states (some lab)
        = Except.ok (out, ⟨some (inferProblemType num_labels lab)⟩)) ∧
    (∀ (num_labels : Nat) (mode : String) (classifier : List ℚ → List ℚ)
        (hidden_states : List (List ℚ)) (pooled : List ℚ) (pt : String) (lab : Tensor),
      merged_strategy hidden_states mode = Except.ok pooled →
      ∃ out, forward num_labels mode classifier ⟨some pt⟩ hidden_states (some lab)
        = Except.ok (out, ⟨some pt⟩) ∧
        (pt = "regression" →
          out.loss = some (LossExpr.mse (classifier pooled) lab.data)) ∧
        (pt = "single_label_classification" →
          out.loss = some (LossExpr.crossEntropy (classifier pooled) lab.data)) ∧
        (pt = "multi_label_classification" →
          out.loss = some (LossExpr.bceWithLogits (classifier pooled) lab.data))) := by
  constructor
  · intro num_labels mode classifier hidden_states pooled lab hp
    refine ⟨⟨(if inferProblemType num_labels lab = "regression" then
          some (LossExpr.mse (classifier pooled) lab.data)
        else if inferProblemType num_labels lab = "single_label_classification" then
          some (LossExpr.crossEntropy (classifier pooled) lab.data)
        else if inferProblemType num_labels lab = "multi_label_classification" then
          some (LossExpr.bceWithLogits (classifier pooled) lab.data)
        else none), ⟨DType.float32, classifier pooled⟩⟩, ?_⟩
    simp [forward, hp]
  · intro num_labels mode classifier hidden_states pooled pt lab hp
    refine ⟨⟨(if pt = "regression" then
          some (LossExpr.mse (classifier pooled) lab.data)
        else if pt = "single_label_classification" then
          some (LossExpr.crossEntropy (classifier pooled) lab.data)
        else if pt = "multi_label_classification" then
          some (LossExpr.bceWithLogits (classifier pooled) lab.data)
        else none), ⟨DType.float32, classifier pooled⟩⟩, ?_, ?_, ?_, ?_⟩
    · simp [forward, hp]
    · intro h
      simp [h]
    · intro h
      simp [h]
    · intro h
      simp [h]

/-- Witness for C9: with the problem type already cached as single-label
classification, a later pass with float-typed labels (which would have been
inferred as multi-label) still reuses the cached type, leaves the config
unchanged, and applies CrossEntropyLoss. -/
theorem problem_type_inferred_once_then_cached_witness :
    (∃ out, forward 4 "mean" (fun v => v) ⟨none⟩ [[1,2],[3,4],[5,6]]
        (some ⟨DType.long, [0,2,1]⟩)
      = Except.ok (out, ⟨some "single_label_classification"⟩)) ∧
    (∃ out, forward 4 "mean" (fun v => v) ⟨some "single_label_classification"⟩
        [[1,2],[3,4],[5,6]] (some ⟨DType.float32, [1,0,1,0]⟩)
      = Except.ok (out, ⟨some "single_label_classification"⟩) ∧
      out.loss = some (LossExpr.crossEntropy [3,4] [1,0,1,0])) ∧
    inferProblemType 4 ⟨DType.float32, [1,0,1,0]⟩ = "multi_label_classification" := by
  have hp : merged_strategy [[1,2],[3,4],[5,6]] "mean" = Except.ok [3,4] := by
    have h : merged_strategy [[1,2],[3,4],[5,6]] "mean"
        = Except.ok (meanPool [[1,2],[3,4],[5,6]]) := by simp [merged_strategy]
    rw [h]
    norm_num [meanPool, sumPool, vecAdd]
  refine ⟨?_, ?_, by decide⟩
  · obtain ⟨out, hout⟩ := problem_type_inferred_once_then_cached.1 4 "mean"
      (fun v => v) [[1,2],[3,4],[5,6]] [3,4] ⟨DType.long, [0,2,1]⟩ hp
    have hi : inferProblemType 4 (⟨DType.long, [0,2,1]⟩ : Tensor)
        = "single_label_classification" := by decide
    exact ⟨out, hi ▸ hout⟩
  · obtain ⟨out, hout, _, hce, _⟩ := problem_type_inferred_once_then_cached.2 4 "mean"
      (fun v => v) [[1,2],[3,4],[5,6]] [3,4] "single_label_classification"
      ⟨DType.float32, [1,0,1,0]⟩ hp
    exact ⟨out, hout, hce rfl⟩

/-- C5 counterexample: as stated, the claim fails on a cache hit whose
persisted file is stale. With a persisted cache holding a single waveform
while two paths are passed in, ppf returns the one stored waveform, so the
output length differs from the input length. -/
theorem ppf_stale_cache_counterexample :
    ¬ ((ppf (fun _ => ([] : Waveform)) (some [[(1:ℚ)]]) ["a","b"]).1.length
        = (["a","b"] : List String).length) := by
  decide

/-- C5 (amended): when no persisted cache file exists for the split (the
build path), ppf returns one decoded waveform per input path, in input
order; a cache hit returns the persisted sequence as-is, which matches the
input paths whenever the persisted file was built from the same paths. -/
theorem ppf_output_matches_paths_on_build (decode : String → Waveform)
    (paths : List String) :
    ((ppf decode none paths).1.length = paths.length ∧
      ∀ i : Nat, (ppf decode none paths).1.get? i = (paths.get? i).map decode) ∧
    ((ppf decode (some (paths.map decode)) paths).1.length = paths.length ∧
      ∀ i : Nat, (ppf decode (some (paths.map decode)) paths).1.get? i
        = (paths.get? i).map decode) := by
  refine ⟨⟨?_, ?_⟩, ?_, ?_⟩ <;>
    simp [ppf, List.get?_eq_getElem?, List.getElem?_map]

/-- C6: a second ppf call against the cache state persisted by the first
call returns the identical waveform sequence and leaves the cache unchanged;
the second call never invokes the decoding primitive (it holds for an
arbitrary decode function on the second call). -/
theorem ppf_second_call_cache_hit :
    ∀ (decode decode' : String → Waveform) (cache : Option (List Waveform))
      (paths : List String),
      (ppf decode' (ppf decode cache paths).2 paths).1 = (ppf decode cache paths).1 ∧
      (ppf decode' (ppf decode cache paths).2 paths).2 = (ppf decode cache paths).2 := by
  intro decode decode' cache paths
  cases cache <;> simp [ppf]

/-- C8: for every non-empty batch, the collator stacks the labels into one
tensor whose dtype is torch.long when the labels are python ints (single-label
classification targets) and torch.float otherwise. -/
theorem collator_label_dtype
    (pad : List (List ℚ) → List (List ℚ) × List (List Nat))
    (features : List FeatureRec) (hne : features ≠ []) :
    ∃ batch, dataCollatorCall pad features = some batch ∧
      batch.labels = features.map (·.labels) ∧
      ((∀ f ∈ features, ∃ n, f.labels = LabelVal.intLab n) →
        batch.labels_dtype = DType.long) ∧
      ((∀ f ∈ features, ∃ v, f.labels = LabelVal.floatVec v) →
        batch.labels_dtype = DType.float32) := by
  obtain ⟨f, t, rfl⟩ : ∃ f t, features = f :: t := by
    cases features with
    | nil => exact absurd rfl hne
    | cons f t => exact ⟨f, t, rfl⟩
  refine ⟨⟨(pad ((f :: t).map (·.input_values))).1,
      (pad ((f :: t).map (·.input_values))).2,
      (match f.labels with
        | LabelVal.intLab _ => DType.long
        | _ => DType.float32),
      (f :: t).map (·.labels)⟩, ?_, rfl, ?_, ?_⟩
  · simp [dataCollatorCall]
  · intro h
    obtain ⟨n, hn⟩ := h f (List.mem_cons_self f t)
    simp [hn]
  · intro h
    obtain ⟨v, hv⟩ := h f (List.mem_cons_self f t)
    simp [hv]

/-- Witness for C8: a two-record batch with integer labels gets a torch.long
label tensor holding both labels. -/
theorem collator_label_dtype_witness :
    ∃ batch, dataCollatorCall (fun l => (l, []))
        [⟨[1,2], LabelVal.intLab 0⟩, ⟨[5], LabelVal.intLab 2⟩] = some batch ∧
      batch.labels = [LabelVal.intLab 0, LabelVal.intLab 2] ∧
      batch.labels_dtype = DType.long := by
  obtain ⟨batch, h1, h2, h3, _⟩ := collator_label_dtype (fun l => (l, []))
    [⟨[1,2], LabelVal.intLab 0⟩, ⟨[5], LabelVal.intLab 2⟩] (by simp)
  refine ⟨batch, h1, by rw [h2]; rfl, h3 ?_⟩
  intro f hf
  simp only [List.mem_cons, List.not_mem_nil, or_false] at hf
  rcases hf with h | h <;> subst h
  · exact ⟨0, rfl⟩
  · exact ⟨2, rfl⟩
